import Mathlib

/-!
# RBAC + cell-level security demo: verification of the security core

Shallow embedding of `src/backend/app/search.py` (clearance map, bulk
security filter, cell-level masking, single-document access decision) and
`src/backend/app/audit.py` (audit event writer and batched cell-access
logging), with theorems settling the specification claims.

Python dictionaries are embedded as association lists in insertion order
(`List (String × _)`); `d.get(k, default)` is `List.lookup` with a default,
and `d[k] = v` updates the entry in place (keeping its position) when the
key is present and appends otherwise, exactly as a Python dict does.
-/

namespace RbacDemo

/-- `ClearanceLevel(IntEnum)` from search.py: the four security levels. -/
inductive ClearanceLevel where
  | UNCLASSIFIED
  | CONFIDENTIAL
  | SECRET
  | TOP_SECRET
deriving DecidableEq, Repr

/-- The `IntEnum` numeric value of each level (UNCLASSIFIED = 0 … TOP_SECRET = 3). -/
def ClearanceLevel.rank : ClearanceLevel → Nat
  | .UNCLASSIFIED => 0
  | .CONFIDENTIAL => 1
  | .SECRET => 2
  | .TOP_SECRET => 3

/-- The member list of the `ClearanceLevel` enum, in declaration order. -/
def clearanceLevels : List ClearanceLevel :=
  [.UNCLASSIFIED, .CONFIDENTIAL, .SECRET, .TOP_SECRET]

/-- `level.name` of a `ClearanceLevel` member. -/
def ClearanceLevel.levelName : ClearanceLevel → String
  | .UNCLASSIFIED => "UNCLASSIFIED"
  | .CONFIDENTIAL => "CONFIDENTIAL"
  | .SECRET => "SECRET"
  | .TOP_SECRET => "TOP_SECRET"

/-- `CLEARANCE_MAP.get(s, default)`: the case-sensitive lookup of a
classification string in the `CLEARANCE_MAP` dict of search.py, falling back
to `default` for any string that is not one of the four exact key names. -/
def clearanceMapGet (s : String) (default : ClearanceLevel) : ClearanceLevel :=
  if s = "UNCLASSIFIED" then .UNCLASSIFIED
  else if s = "CONFIDENTIAL" then .CONFIDENTIAL
  else if s = "SECRET" then .SECRET
  else if s = "TOP_SECRET" then .TOP_SECRET
  else default

/-- The authenticated principal (`CurrentUser` from app.auth, as used by
search.py): only the attributes the security core reads are modelled.
`clearance_level` and `compartments` are optional, as in the Python class. -/
structure CurrentUser where
  username : String
  clearance_level : Option String
  compartments : Option (List String)
deriving DecidableEq, Repr

/-- Python `str.upper()`: uppercase each character (ASCII, per
`Char.toUpper`). -/
def pyUpper (s : String) : String := String.mk (s.data.map Char.toUpper)

/-- `user.clearance_level.upper() if user.clearance_level else "UNCLASSIFIED"`,
then looked up in `CLEARANCE_MAP` with default UNCLASSIFIED.  A `None` or
empty string (both falsy in Python) selects the literal "UNCLASSIFIED". -/
def userClearance (user : CurrentUser) : ClearanceLevel :=
  clearanceMapGet
    (match user.clearance_level with
      | none => "UNCLASSIFIED"
      | some s => if s = "" then "UNCLASSIFIED" else pyUpper s)
    .UNCLASSIFIED

/-- `user.compartments or []`. -/
def userCompartments (user : CurrentUser) : List String :=
  match user.compartments with
  | none => []
  | some l => l

/-- One value of a `field_security` entry: a dict with optional
`classification` and `compartments` keys (`security.get(...)` with defaults
is applied at the use sites, as in the code). -/
structure FieldSec where
  classification : Option String
  compartments : Option (List String)
deriving DecidableEq, Repr

/-- A JSON value stored in a document's `_source` mapping, restricted to the
shapes the security core manipulates: strings, arrays of strings, and the
nested `field_security` mapping. -/
inductive JVal where
  | s (v : String)
  | arr (v : List String)
  | fsec (v : List (String × FieldSec))
deriving DecidableEq, Repr

/-- A document `_source` mapping: keys to JSON values, in insertion order. -/
abbrev SourceMap := List (String × JVal)

/-- Python `d[k] = v` on a dict embedded as an association list: if the key
is present, its entry is updated in place (every entry with that key, and a
Python dict holds each key once); otherwise the pair is appended. -/
def dictSet (m : SourceMap) (k : String) (v : JVal) : SourceMap :=
  if (m.lookup k).isSome then
    m.map (fun p => if p.1 = k then (k, v) else p)
  else
    m ++ [(k, v)]

/-- `set(source.get("compartments", []))` viewed as the list of its members:
a missing key gives the empty set, an array gives its elements, iterating a
string yields its one-character substrings, and iterating a dict yields its
keys (Python set-construction semantics).  Only emptiness and membership of
the result are ever used, so duplicates are irrelevant. -/
def pyCompartments (source : SourceMap) : List String :=
  match source.lookup "compartments" with
  | none => []
  | some (.arr v) => v
  | some (.s c) => c.toList.map (fun ch => String.mk [ch])
  | some (.fsec m) => m.map Prod.fst

/-- `source.get("classification", "UNCLASSIFIED")` followed by the
`CLEARANCE_MAP.get` lookup.  A stored array or dict is unhashable in Python
and `CLEARANCE_MAP.get` raises `TypeError`, modelled as `none`. -/
def classificationString (source : SourceMap) : Option String :=
  match source.lookup "classification" with
  | none => some "UNCLASSIFIED"
  | some (.s c) => some c
  | some _ => none

/-- `doc.get("_source", {}).get("field_security", {})` followed by
`.items()`: a missing key yields the empty mapping; a present mapping yields
its entries; any other value (e.g. a string) has no `.items` attribute and
Python raises `AttributeError`, modelled as `none`. -/
def getFieldSecurity (source : SourceMap) : Option (List (String × FieldSec)) :=
  match source.lookup "field_security" with
  | none => some []
  | some (.fsec m) => some m
  | some _ => none

/-- `CLEARANCE_MAP.get(security.get("classification", "UNCLASSIFIED"), UNCLASSIFIED)`
for one field-security entry. -/
def fieldClassification (security : FieldSec) : ClearanceLevel :=
  clearanceMapGet (security.classification.getD "UNCLASSIFIED") .UNCLASSIFIED

/-- `set(security.get("compartments", []))`. -/
def fieldCompartments (security : FieldSec) : List String :=
  security.compartments.getD []

/-- The `should_mask` computation of `apply_cell_level_security`: mask when
the field's classification outranks the user's clearance, or when the field
has compartments and they are not all held by the user. -/
def shouldMask (security : FieldSec) (uc : ClearanceLevel) (ucomp : List String) : Bool :=
  if (fieldClassification security).rank > uc.rank then true
  else if fieldCompartments security ≠ [] ∧
      ¬ (∀ c ∈ fieldCompartments security, c ∈ ucomp) then true
  else false

/-- The `for field_name, security in field_security.items()` loop of
`apply_cell_level_security`: walks the captured `field_security` entries in
order, and for each entry that should be masked and whose field is present
in the (mutating) source dict, overwrites the value with "[REDACTED]" and
appends the name to `masked_fields`. -/
def applyCellLoop (fs : List (String × FieldSec)) (uc : ClearanceLevel)
    (ucomp : List String) (source : SourceMap) (masked : List String) :
    SourceMap × List String :=
  match fs with
  | [] => (source, masked)
  | (fname, security) :: rest =>
    if shouldMask security uc ucomp ∧ (source.lookup fname).isSome then
      applyCellLoop rest uc ucomp (dictSet source fname (.s "[REDACTED]"))
        (masked ++ [fname])
    else
      applyCellLoop rest uc ucomp source masked

/-- `apply_cell_level_security(doc, user)` from search.py, acting on the
document's `_source` mapping (the only part the function reads and writes).
Returns `none` when `field_security` is present but is not a mapping, where
the Python `.items()` call raises.  Otherwise returns the redacted source
and the list of masked field names. -/
def apply_cell_level_security (source : SourceMap) (user : CurrentUser) :
    Option (SourceMap × List String) :=
  match getFieldSecurity source with
  | none => none
  | some fs =>
    some (applyCellLoop fs (userClearance user) (userCompartments user) source [])

/-- The denial reasons of the document-level access decision in
`get_document`.  The compartment denial carries the missing compartments
(`doc_compartments - user_compartments`). -/
inductive Reason where
  | insufficientClearance
  | missingCompartments (missing : List String)
deriving DecidableEq, Repr

/-- Outcome of the document-level admit/deny evaluation of `get_document`
(search.py lines 387-417): allow, deny with HTTP 403 and a reason, or a
Python `TypeError` when the stored classification value is unhashable. -/
inductive AccessEval where
  | allowed
  | denied (reason : Reason)
  | evalError
deriving DecidableEq, Repr

/-- The document-level access decision of `get_document`: the clearance
check first (deny with `insufficient_clearance`), then the compartment
subset check (deny with `missing_compartments`), else allow. -/
def evaluateAccess (source : SourceMap) (user : CurrentUser) : AccessEval :=
  match classificationString source with
  | none => .evalError
  | some cls =>
    let docClassification := clearanceMapGet cls .UNCLASSIFIED
    let userCl := userClearance user
    if docClassification.rank > userCl.rank then
      .denied .insufficientClearance
    else
      let docComp := pyCompartments source
      let ucomp := userCompartments user
      if docComp ≠ [] ∧ ¬ (∀ c ∈ docComp, c ∈ ucomp) then
        .denied (.missingCompartments (docComp.filter (fun c => c ∉ ucomp)))
      else
        .allowed

/-- An audit record emitted by the helpers at the bottom of search.py:
`log_access_denied`, `log_document_access`, and `log_search_audit`. -/
inductive AuditEvent where
  | accessDenied (username : String) (docId : String) (reason : Reason)
  | docAccess (username : String) (docId : String)
  | searchAudit (username : String) (query : String) (total : Nat)
deriving DecidableEq, Repr

/-- Result of the `get_document` endpoint after a successful fetch: the
redacted document plus masked-field list, an HTTP 403 denial, or an
uncaught Python error (unhashable classification, or malformed
`field_security` crashing the masking pass). -/
inductive GetDocOutcome where
  | ok (document : SourceMap) (maskedFields : List String)
  | forbidden (reason : Reason)
  | pyError
deriving DecidableEq, Repr

/-- `get_document(document_id, user)` from search.py, from the point where
the fetched `_source` is in hand: evaluate document-level access, and on
denial log exactly one `log_access_denied` event and raise 403; on allow run
the masking pass, log one `log_document_access` event, and return the
redacted document with its masked-field list.  The second component is the
list of audit events emitted, in order. -/
def get_document (documentId : String) (source : SourceMap)
    (user : CurrentUser) : GetDocOutcome × List AuditEvent :=
  match evaluateAccess source user with
  | .evalError => (.pyError, [])
  | .denied r => (.forbidden r, [.accessDenied user.username documentId r])
  | .allowed =>
    match apply_cell_level_security source user with
    | none => (.pyError, [])
    | some (src, masked) =>
      (.ok src masked, [.docAccess user.username documentId])

/-- The `allowed_classifications` list of `build_security_filter`:
`[level.name for level in ClearanceLevel if level <= user_clearance]`. -/
def allowedClassifications (uc : ClearanceLevel) : List String :=
  (clearanceLevels.filter (fun l => l.rank ≤ uc.rank)).map ClearanceLevel.levelName

/-- Whether a stored document matches the OpenSearch filter clauses built by
`build_security_filter(user)`, under keyword-index semantics:
the `terms` clause on `classification.keyword` matches when the stored
classification is exactly one of the allowed level names (a missing or
non-string value indexes no matching keyword); the compartment `bool/should`
matches when the `compartments` field indexes no values (missing or empty
array — the `must_not exists` clause; the `term {compartments: []}` clause
matches nothing), or, when the user holds compartments, the painless script
accepts: every indexed document compartment is contained in the user's
list.  A stored string indexes itself as the single value of the field.
`filterDocCompartments` is the list of values the `compartments` field
indexes for a document. -/
def filterDocCompartments (source : SourceMap) : List String :=
  match source.lookup "compartments" with
  | none => []
  | some (.arr v) => v
  | some (.s c) => [c]
  | some (.fsec _) => []

def matchesSecurityFilter (user : CurrentUser) (source : SourceMap) : Bool :=
  (match source.lookup "classification" with
    | some (.s c) => decide (c ∈ allowedClassifications (userClearance user))
    | _ => false) &&
  decide (filterDocCompartments source = [] ∨
    (userCompartments user ≠ [] ∧
      ∀ c ∈ filterDocCompartments source, c ∈ userCompartments user))

/-- The result-processing stage of `search_documents` (search.py lines
314-341): each fetched hit gets the masking pass (a hit whose masking pass
raises aborts the request), and a single `log_search_audit` event is emitted
for the whole request — no per-hit or per-field audit event exists on this
path.  Each hit is given as its `_source` mapping. -/
def search_documents (query : String) (hits : List SourceMap)
    (user : CurrentUser) : Option (List (SourceMap × List String) × List AuditEvent) :=
  match hits with
  | [] => some ([], [.searchAudit user.username query 0])
  | h :: rest =>
    match apply_cell_level_security h user, search_documents query rest user with
    | some res, some (results, _) =>
      some (res :: results, [.searchAudit user.username query (hits.length)])
    | _, _ => none

/-- One row of the `audit_log` table, restricted to the columns the batched
cell-access logger fills in (audit.py `log_event`). -/
structure AuditRow where
  action : String
  resource_type : String
  resource_id : Option String
  field_name : Option String
  classification_required : Option String
  was_allowed : Bool
  denial_reason : Option String
deriving DecidableEq, Repr

/-- The audit database session: rows already committed, plus statements
executed in the open transaction but not yet committed. -/
structure Db where
  committed : List AuditRow
  pending : List AuditRow
deriving DecidableEq, Repr

/-- `db.execute(INSERT ...)`: appends the row to the open transaction. -/
def dbExecute (db : Db) (r : AuditRow) : Db :=
  { db with pending := db.pending ++ [r] }

/-- `db.commit()`: makes every pending row durable, in order. -/
def dbCommit (db : Db) : Db :=
  { committed := db.committed ++ db.pending, pending := [] }

/-- `log_event(db, ...)` from audit.py: one INSERT followed immediately by
`db.commit()`.  The boolean `ok` models whether the underlying store accepts
the write; when it does not, the Python call raises and the row is not
recorded (`Except.error` carries the session state). -/
def log_event (db : Db) (ok : Bool) (r : AuditRow) : Except Db Db :=
  if ok then .ok (dbCommit (dbExecute db r)) else .error db

/-- One entry of the `cell_access_log` list passed to
`log_cell_access_batch`. -/
structure CellEntry where
  field_name : String
  classification_required : Option String
  was_allowed : Bool
  denial_reason : Option String
deriving DecidableEq, Repr

/-- The audit row `log_cell_access_batch` builds for one cell entry. -/
def rowOfEntry (recordId : String) (e : CellEntry) : AuditRow :=
  { action := if e.was_allowed then "READ_CELL" else "CELL_ACCESS_DENIED"
    resource_type := "cell"
    resource_id := some recordId
    field_name := some e.field_name
    classification_required := e.classification_required
    was_allowed := e.was_allowed
    denial_reason := e.denial_reason }

/-- `log_cell_access_batch(db, user, record_id, ..., cell_access_log)` from
audit.py: a `for` loop calling `log_event` once per entry, in list order.
`ok i` models whether the i-th write succeeds; the first failing write
raises out of the loop, leaving the earlier, already-committed rows in
place. -/
def log_cell_access_batch (recordId : String) (entries : List CellEntry)
    (ok : Nat → Bool) (db : Db) : Except Db Db :=
  match entries with
  | [] => .ok db
  | e :: rest =>
    match log_event db (ok 0) (rowOfEntry recordId e) with
    | .error db => .error db
    | .ok db => log_cell_access_batch recordId rest (fun i => ok (i + 1)) db

/-- The state of the caller's `_source` mapping after
`apply_cell_level_security(doc, user)` returns.  `filtered_doc = doc.copy()`
is a shallow copy, so `source = filtered_doc.get("_source", {})` is the very
dict object inside the caller's `doc`, and every `source[field_name] =
"[REDACTED]"` mutates it in place.  When the pass raises (malformed
`field_security`), it does so before any assignment, leaving the input
intact. -/
def applyCellInputSourceAfter (source : SourceMap) (user : CurrentUser) : SourceMap :=
  match apply_cell_level_security source user with
  | some (src, _) => src
  | none => source

/-- The names the masking loop redacts, computed without state: the keys of
`field_security` entries, in mapping order, whose entry should be masked and
whose field is present in the source. -/
def maskedNames (fs : List (String × FieldSec)) (uc : ClearanceLevel)
    (ucomp : List String) (source : SourceMap) : List String :=
  fs.filterMap fun p =>
    if shouldMask p.2 uc ucomp ∧ (source.lookup p.1).isSome then some p.1 else none

theorem lookup_cons {β : Type} (a k : String) (v : β) (l : List (String × β)) :
    List.lookup a ((k, v) :: l) = if a = k then some v else List.lookup a l := by
  by_cases h : a = k
  · have hb : (a == k) = true := beq_iff_eq.mpr h
    simp [List.lookup, hb, h]
  · have hb : (a == k) = false := beq_eq_false_iff_ne.mpr h
    simp [List.lookup, hb, h]

theorem lookup_append (m₁ m₂ : SourceMap) (f : String) :
    (m₁ ++ m₂).lookup f = (m₁.lookup f).or (m₂.lookup f) := by
  induction m₁ with
  | nil => simp [List.lookup]
  | cons p rest ih =>
    obtain ⟨a, b⟩ := p
    rw [List.cons_append, lookup_cons, lookup_cons]
    by_cases h : f = a
    · simp [h]
    · simp [h, ih]

theorem lookup_map_set_self (m : SourceMap) (k : String) (v : JVal) :
    (m.map (fun p => if p.1 = k then (k, v) else p)).lookup k =
      if (m.lookup k).isSome then some v else none := by
  induction m with
  | nil => simp [List.lookup]
  | cons p rest ih =>
    obtain ⟨a, b⟩ := p
    by_cases h : a = k
    · subst h
      simp [lookup_cons]
    · have h' : ¬ k = a := fun hk => h hk.symm
      have hr : List.lookup k ((a, b) :: rest) = List.lookup k rest := by
        rw [lookup_cons, if_neg h']
      rw [hr]
      simp [lookup_cons, h, h', ih]

theorem lookup_map_set_ne (m : SourceMap) (k f : String) (v : JVal)
    (hf : f ≠ k) :
    (m.map (fun p => if p.1 = k then (k, v) else p)).lookup f = m.lookup f := by
  induction m with
  | nil => simp
  | cons p rest ih =>
    obtain ⟨a, b⟩ := p
    by_cases h : a = k
    · subst h
      simp [lookup_cons, hf, ih]
    · simp [lookup_cons, h, ih]

theorem dictSet_lookup_self (m : SourceMap) (k : String) (v : JVal)
    (h : (m.lookup k).isSome) : (dictSet m k v).lookup k = some v := by
  unfold dictSet
  rw [if_pos h, lookup_map_set_self, if_pos h]

theorem dictSet_lookup_ne (m : SourceMap) (k f : String) (v : JVal)
    (hf : f ≠ k) : (dictSet m k v).lookup f = m.lookup f := by
  unfold dictSet
  split
  · exact lookup_map_set_ne m k f v hf
  · rw [lookup_append]
    have : ([(k, v)] : SourceMap).lookup f = none := by
      rw [lookup_cons, if_neg hf]
      rfl
    rw [this]
    cases m.lookup f <;> rfl

theorem dictSet_lookup_isSome (m : SourceMap) (k : String) (v : JVal)
    (h : (m.lookup k).isSome) (f : String) :
    ((dictSet m k v).lookup f).isSome = (m.lookup f).isSome := by
  by_cases hf : f = k
  · subst hf
    rw [dictSet_lookup_self m f v h, h]
    rfl
  · rw [dictSet_lookup_ne m k f v hf]

theorem maskedNames_congr (fs : List (String × FieldSec)) (uc : ClearanceLevel)
    (ucomp : List String) (s₁ s₂ : SourceMap)
    (h : ∀ f, (s₁.lookup f).isSome = (s₂.lookup f).isSome) :
    maskedNames fs uc ucomp s₁ = maskedNames fs uc ucomp s₂ := by
  unfold maskedNames
  induction fs with
  | nil => rfl
  | cons p rest ih =>
    simp only [List.filterMap_cons]
    have hc : (shouldMask p.2 uc ucomp = true ∧ (s₁.lookup p.1).isSome = true) ↔
        (shouldMask p.2 uc ucomp = true ∧ (s₂.lookup p.1).isSome = true) := by
      rw [h p.1]
    rw [if_congr hc rfl rfl, ih]

theorem maskedNames_subset_keys (fs : List (String × FieldSec))
    (uc : ClearanceLevel) (ucomp : List String) (source : SourceMap) (f : String)
    (h : f ∈ maskedNames fs uc ucomp source) : f ∈ fs.map Prod.fst := by
  unfold maskedNames at h
  rw [List.mem_filterMap] at h
  obtain ⟨p, hp, hif⟩ := h
  rw [List.mem_map]
  by_cases hc : shouldMask p.2 uc ucomp = true ∧ (source.lookup p.1).isSome = true
  · rw [if_pos hc] at hif
    exact ⟨p, hp, Option.some.inj hif⟩
  · rw [if_neg hc] at hif
    exact absurd hif (by simp)

/-- Characterization of the masking loop: the masked-name list is the
accumulator followed by `maskedNames`, and the final source agrees with the
input source except that every masked name now holds "[REDACTED]". -/
theorem applyCellLoop_spec (fs : List (String × FieldSec)) (uc : ClearanceLevel)
    (ucomp : List String) (source : SourceMap) (acc : List String)
    (hnd : (fs.map Prod.fst).Nodup) :
    (applyCellLoop fs uc ucomp source acc).2 = acc ++ maskedNames fs uc ucomp source ∧
    ∀ f, ((applyCellLoop fs uc ucomp source acc).1).lookup f =
      if f ∈ maskedNames fs uc ucomp source then some (.s "[REDACTED]")
      else source.lookup f := by
  induction fs generalizing source acc with
  | nil =>
    constructor
    · simp [applyCellLoop, maskedNames]
    · intro f
      simp [applyCellLoop, maskedNames]
  | cons p rest ih =>
    obtain ⟨fname, security⟩ := p
    rw [List.map_cons, List.nodup_cons] at hnd
    obtain ⟨hfn, hnd'⟩ := hnd
    by_cases hc : shouldMask security uc ucomp = true ∧ (source.lookup fname).isSome = true
    · have hpresent := hc.2
      have hsrc' : ∀ f,
          ((dictSet source fname (.s "[REDACTED]")).lookup f).isSome =
            (source.lookup f).isSome :=
        dictSet_lookup_isSome source fname _ hpresent
      have hmn : maskedNames ((fname, security) :: rest) uc ucomp source =
          fname :: maskedNames rest uc ucomp source := by
        simp [maskedNames, hc]
      have hcongr : maskedNames rest uc ucomp (dictSet source fname (.s "[REDACTED]")) =
          maskedNames rest uc ucomp source :=
        maskedNames_congr rest uc ucomp _ _ hsrc'
      have hloop : applyCellLoop ((fname, security) :: rest) uc ucomp source acc =
          applyCellLoop rest uc ucomp (dictSet source fname (.s "[REDACTED]"))
            (acc ++ [fname]) := by
        simp only [applyCellLoop]
        rw [if_pos hc]
      obtain ⟨ih1, ih2⟩ := ih (dictSet source fname (.s "[REDACTED]")) (acc ++ [fname]) hnd'
      constructor
      · rw [hloop, ih1, hcongr, hmn]
        simp
      · intro f
        rw [hloop, ih2 f, hcongr, hmn]
        by_cases hf : f = fname
        · subst hf
          have hnm : f ∉ maskedNames rest uc ucomp source := fun hmem =>
            hfn (maskedNames_subset_keys rest uc ucomp source f hmem)
          rw [if_neg hnm, dictSet_lookup_self source f _ hpresent,
            if_pos (List.mem_cons_self f _)]
        · rw [dictSet_lookup_ne source fname f _ hf]
          by_cases hmem : f ∈ maskedNames rest uc ucomp source
          · rw [if_pos hmem, if_pos (List.mem_cons_of_mem _ hmem)]
          · rw [if_neg hmem, if_neg (by simp [hf, hmem])]
    · have hmn : maskedNames ((fname, security) :: rest) uc ucomp source =
          maskedNames rest uc ucomp source := by
        unfold maskedNames
        simp only [List.filterMap_cons]
        rw [if_neg hc]
      have hloop : applyCellLoop ((fname, security) :: rest) uc ucomp source acc =
          applyCellLoop rest uc ucomp source acc := by
        simp only [applyCellLoop]
        rw [if_neg hc]
      obtain ⟨ih1, ih2⟩ := ih source acc hnd'
      rw [hloop, hmn]
      exact ⟨ih1, ih2⟩

/-- With duplicate-free keys (a Python dict), membership of a pair in the
association list coincides with a successful lookup. -/
theorem mem_iff_lookup_of_nodup {β : Type} (l : List (String × β)) (k : String)
    (v : β) (hnd : (l.map Prod.fst).Nodup) : (k, v) ∈ l ↔ l.lookup k = some v := by
  induction l with
  | nil => simp [List.lookup]
  | cons p rest ih =>
    obtain ⟨a, b⟩ := p
    rw [List.map_cons, List.nodup_cons] at hnd
    obtain ⟨ha, hnd'⟩ := hnd
    rw [lookup_cons]
    by_cases h : k = a
    · subst h
      rw [if_pos rfl]
      constructor
      · intro hm
        rcases List.mem_cons.mp hm with heq | hm'
        · rw [Prod.mk.injEq] at heq
          rw [heq.2]
        · exact absurd (List.mem_map.mpr ⟨(k, v), hm', rfl⟩) ha
      · intro hv
        rw [Option.some.injEq] at hv
        rw [hv]
        exact List.mem_cons_self _ _
    · rw [if_neg h]
      constructor
      · intro hm
        rcases List.mem_cons.mp hm with heq | hm'
        · rw [Prod.mk.injEq] at heq
          exact absurd heq.1 h
        · exact (ih hnd').mp hm'
      · intro hv
        exact List.mem_cons_of_mem _ ((ih hnd').mpr hv)

/-- A name in `maskedNames` names a field present in the source. -/
theorem maskedNames_present (fs : List (String × FieldSec)) (uc : ClearanceLevel)
    (ucomp : List String) (source : SourceMap) (f : String)
    (h : f ∈ maskedNames fs uc ucomp source) : (source.lookup f).isSome = true := by
  unfold maskedNames at h
  rw [List.mem_filterMap] at h
  obtain ⟨p, _, hif⟩ := h
  by_cases hc : shouldMask p.2 uc ucomp = true ∧ (source.lookup p.1).isSome = true
  · rw [if_pos hc] at hif
    rw [Option.some.injEq] at hif
    rw [← hif]
    exact hc.2
  · rw [if_neg hc] at hif
    exact absurd hif (by simp)

/-- The mask condition of the loop, spelled out as the disjunction stated in
the specification. -/
theorem shouldMask_iff (sec : FieldSec) (uc : ClearanceLevel) (ucomp : List String) :
    shouldMask sec uc ucomp = true ↔
      ((fieldClassification sec).rank > uc.rank ∨
        (fieldCompartments sec ≠ [] ∧ ¬ ∀ c ∈ fieldCompartments sec, c ∈ ucomp)) := by
  unfold shouldMask
  by_cases h1 : (fieldClassification sec).rank > uc.rank
  · simp [h1]
  · by_cases h2 : fieldCompartments sec ≠ [] ∧ ¬ ∀ c ∈ fieldCompartments sec, c ∈ ucomp
    · simp [h1, h2]
    · simp [h1, h2]

/-- `maskedNames` as an order-preserving filter of the `field_security`
entries. -/
theorem maskedNames_eq_filter (fs : List (String × FieldSec)) (uc : ClearanceLevel)
    (ucomp : List String) (source : SourceMap) :
    maskedNames fs uc ucomp source =
      (fs.filter (fun p =>
        shouldMask p.2 uc ucomp ∧ (source.lookup p.1).isSome)).map Prod.fst := by
  unfold maskedNames
  induction fs with
  | nil => rfl
  | cons p rest ih =>
    simp only [List.filterMap_cons, List.filter_cons]
    by_cases hc : shouldMask p.2 uc ucomp = true ∧ (source.lookup p.1).isSome = true
    · rw [if_pos hc]
      have hd : (decide (shouldMask p.2 uc ucomp = true ∧
          (source.lookup p.1).isSome = true)) = true := decide_eq_true hc
      simp [hd, ih]
    · rw [if_neg hc]
      have hd : (decide (shouldMask p.2 uc ucomp = true ∧
          (source.lookup p.1).isSome = true)) = false := decide_eq_false hc
      simp [hd, ih]

/-- The document-level decision, unfolded once the classification string is
known. -/
theorem evaluateAccess_eq (source : SourceMap) (user : CurrentUser) (c : String)
    (hc : classificationString source = some c) :
    evaluateAccess source user =
      (if (clearanceMapGet c .UNCLASSIFIED).rank > (userClearance user).rank then
        .denied .insufficientClearance
      else if pyCompartments source ≠ [] ∧
          ¬ ∀ x ∈ pyCompartments source, x ∈ userCompartments user then
        .denied (.missingCompartments
          ((pyCompartments source).filter (fun x => x ∉ userCompartments user)))
      else .allowed) := by
  unfold evaluateAccess
  rw [hc]

/-- The admit condition of the document-level decision. -/
theorem evaluateAccess_allowed_iff (source : SourceMap) (user : CurrentUser)
    (c : String) (hc : classificationString source = some c) :
    evaluateAccess source user = .allowed ↔
      ((clearanceMapGet c .UNCLASSIFIED).rank ≤ (userClearance user).rank ∧
        ∀ x ∈ pyCompartments source, x ∈ userCompartments user) := by
  rw [evaluateAccess_eq source user c hc]
  by_cases h1 : (clearanceMapGet c .UNCLASSIFIED).rank > (userClearance user).rank
  · rw [if_pos h1]
    constructor
    · intro h
      exact absurd h (by simp)
    · intro ⟨hr, _⟩
      omega
  · rw [if_neg h1]
    by_cases h2 : pyCompartments source ≠ [] ∧
        ¬ ∀ x ∈ pyCompartments source, x ∈ userCompartments user
    · rw [if_pos h2]
      constructor
      · intro h
        exact absurd h (by simp)
      · intro ⟨_, hs⟩
        exact absurd hs h2.2
    · rw [if_neg h2]
      constructor
      · intro _
        refine ⟨by omega, ?_⟩
        by_cases he : pyCompartments source = []
        · intro x hx
          rw [he] at hx
          exact absurd hx (List.not_mem_nil x)
        · rw [not_and_or] at h2
          rcases h2 with h2 | h2
          · exact absurd he (by simpa using h2)
          · simpa using h2
      · intro _
        rfl

/-- Membership in `allowed_classifications` coincides with the rank
comparison, for the four recognized level names. -/
theorem mem_allowedClassifications (c : String) (uc : ClearanceLevel)
    (hrec : c ∈ ["UNCLASSIFIED", "CONFIDENTIAL", "SECRET", "TOP_SECRET"]) :
    c ∈ allowedClassifications uc ↔ (clearanceMapGet c .UNCLASSIFIED).rank ≤ uc.rank := by
  simp only [List.mem_cons, List.not_mem_nil, or_false] at hrec
  rcases hrec with h | h | h | h <;> subst h <;> cases uc <;> decide

/-- Sample principal with SECRET clearance and the PROJECT_ALPHA compartment. -/
def alice : CurrentUser := ⟨"alice", some "SECRET", some ["PROJECT_ALPHA"]⟩

/-- Sample principal with no clearance attribute and no compartments
(defaults to UNCLASSIFIED / empty). -/
def bob : CurrentUser := ⟨"bob", none, none⟩

/-- Sample document: SECRET, compartment PROJECT_ALPHA. -/
def secretAlphaDoc : SourceMap :=
  [("classification", .s "SECRET"), ("compartments", .arr ["PROJECT_ALPHA"])]

/-- Sample document: TOP_SECRET, compartment OPERATION_DELTA. -/
def topSecretDeltaDoc : SourceMap :=
  [("classification", .s "TOP_SECRET"), ("compartments", .arr ["OPERATION_DELTA"])]

/-- Sample document whose stored classification is the lowercase string
"secret", not a key of CLEARANCE_MAP. -/
def lowercaseSecretDoc : SourceMap := [("classification", .s "secret")]

/-- Sample document whose `field_security` mapping lists its fields in the
opposite of the order in which they appear in the document. -/
def outOfOrderSecurityDoc : SourceMap :=
  [("a", .s "1"), ("b", .s "2"),
   ("field_security", .fsec
     [("b", ⟨some "TOP_SECRET", none⟩), ("a", ⟨some "TOP_SECRET", none⟩)])]

/-- Sample document whose `field_security` mapping secures the
`field_security` entry itself. -/
def selfSecuredDoc : SourceMap :=
  [("field_security", .fsec [("field_security", ⟨some "TOP_SECRET", none⟩)])]

/-- Sample document with one SECRET-restricted field. -/
def secretFieldDoc : SourceMap :=
  [("content", .s "launch codes"),
   ("field_security", .fsec [("content", ⟨some "SECRET", none⟩)])]

/-- C1: for every principal and every document whose stored classification
value is a string (so that its rank is defined), the single-document access
evaluation of `get_document` allows access iff the document's rank is at
most the principal's clearance rank and every document compartment is held
by the principal; any other outcome is a denial (HTTP 403) with a reason. -/
theorem C1_single_document_evaluation (source : SourceMap) (user : CurrentUser)
    (c : String) (hc : classificationString source = some c) :
    (evaluateAccess source user = .allowed ↔
      ((clearanceMapGet c .UNCLASSIFIED).rank ≤ (userClearance user).rank ∧
        ∀ x ∈ pyCompartments source, x ∈ userCompartments user)) ∧
    (evaluateAccess source user ≠ .allowed →
      ∃ r, evaluateAccess source user = .denied r) := by
  refine ⟨evaluateAccess_allowed_iff source user c hc, ?_⟩
  intro h
  rw [evaluateAccess_eq source user c hc] at h ⊢
  by_cases h1 : (clearanceMapGet c .UNCLASSIFIED).rank > (userClearance user).rank
  · rw [if_pos h1]
    exact ⟨_, rfl⟩
  · rw [if_neg h1] at h ⊢
    by_cases h2 : pyCompartments source ≠ [] ∧
        ¬ ∀ x ∈ pyCompartments source, x ∈ userCompartments user
    · rw [if_pos h2]
      exact ⟨_, rfl⟩
    · rw [if_neg h2] at h
      exact absurd rfl h

/-- Witness for C1: alice against the SECRET / PROJECT_ALPHA document. -/
theorem C1_witness :
    (evaluateAccess secretAlphaDoc alice = .allowed ↔
      ((clearanceMapGet "SECRET" .UNCLASSIFIED).rank ≤ (userClearance alice).rank ∧
        ∀ x ∈ pyCompartments secretAlphaDoc, x ∈ userCompartments alice)) ∧
    (evaluateAccess secretAlphaDoc alice ≠ .allowed →
      ∃ r, evaluateAccess secretAlphaDoc alice = .denied r) :=
  C1_single_document_evaluation secretAlphaDoc alice "SECRET" rfl

/-- C5: when a document outranks the principal's clearance and its
compartments are not all held either, the evaluation denies with the
insufficient-clearance reason — the clearance check runs first. -/
theorem C5_clearance_checked_first (source : SourceMap) (user : CurrentUser)
    (c : String) (hc : classificationString source = some c)
    (h1 : (clearanceMapGet c .UNCLASSIFIED).rank > (userClearance user).rank)
    (_h2 : ¬ ∀ x ∈ pyCompartments source, x ∈ userCompartments user) :
    evaluateAccess source user = .denied .insufficientClearance := by
  rw [evaluateAccess_eq source user c hc, if_pos h1]

/-- Witness for C5: alice (SECRET, PROJECT_ALPHA) against the TOP_SECRET /
OPERATION_DELTA document fails both checks and sees the clearance denial. -/
theorem C5_witness :
    (clearanceMapGet "TOP_SECRET" .UNCLASSIFIED).rank > (userClearance alice).rank ∧
    ¬ (∀ x ∈ pyCompartments topSecretDeltaDoc, x ∈ userCompartments alice) ∧
    evaluateAccess topSecretDeltaDoc alice = .denied .insufficientClearance :=
  ⟨by decide, by decide,
    C5_clearance_checked_first topSecretDeltaDoc alice "TOP_SECRET" rfl
      (by decide) (by decide)⟩

/-- C10: a classification string that is not one of the four exact uppercase
names (`CLEARANCE_MAP` is case-sensitive and `.get` defaults to
UNCLASSIFIED) maps to the lowest level, so the clearance branch of the
document decision can never deny such a document, and the classification
branch of the masking pass can never mask such a field (here: a field whose
security entry carries no compartments). -/
theorem C10_unrecognized_classification (s : String) (source : SourceMap)
    (user : CurrentUser) (sec : FieldSec) (uc : ClearanceLevel)
    (ucomp : List String)
    (hs : s ∉ ["UNCLASSIFIED", "CONFIDENTIAL", "SECRET", "TOP_SECRET"])
    (hcs : classificationString source = some s)
    (hcl : sec.classification = some s) (hcomp : fieldCompartments sec = []) :
    clearanceMapGet s .UNCLASSIFIED = .UNCLASSIFIED ∧
    evaluateAccess source user ≠ .denied .insufficientClearance ∧
    shouldMask sec uc ucomp = false := by
  simp only [List.mem_cons, List.not_mem_nil, or_false, not_or] at hs
  obtain ⟨h1, h2, h3, h4⟩ := hs
  have hmap : clearanceMapGet s .UNCLASSIFIED = .UNCLASSIFIED := by
    unfold clearanceMapGet
    rw [if_neg h1, if_neg h2, if_neg h3, if_neg h4]
  refine ⟨hmap, ?_, ?_⟩
  · rw [evaluateAccess_eq source user s hcs, hmap]
    have hlt : ¬ (ClearanceLevel.UNCLASSIFIED.rank > (userClearance user).rank) := by
      simp [ClearanceLevel.rank]
    rw [if_neg hlt]
    split
    · simp
    · simp
  · have hfc : fieldClassification sec = .UNCLASSIFIED := by
      unfold fieldClassification
      rw [hcl]
      exact hmap
    simp [shouldMask, hfc, hcomp, ClearanceLevel.rank]

/-- Witness for C10: the lowercase classification "secret" on a document and
on a compartment-free field, against a principal with no clearance. -/
theorem C10_witness :
    "secret" ∉ ["UNCLASSIFIED", "CONFIDENTIAL", "SECRET", "TOP_SECRET"] ∧
    (clearanceMapGet "secret" .UNCLASSIFIED = .UNCLASSIFIED ∧
      evaluateAccess lowercaseSecretDoc bob ≠ .denied .insufficientClearance ∧
      shouldMask ⟨some "secret", none⟩ (userClearance bob) (userCompartments bob) = false) :=
  ⟨by decide,
    C10_unrecognized_classification "secret" lowercaseSecretDoc bob
      ⟨some "secret", none⟩ (userClearance bob) (userCompartments bob)
      (by decide) rfl rfl rfl⟩

/-- C3 counterexample: the document whose stored classification is the
lowercase string "secret" is admitted by the per-item evaluation (the
case-sensitive CLEARANCE_MAP lookup defaults it to UNCLASSIFIED) but does
not match the bulk security filter, whose `terms` clause only matches the
four exact uppercase names — so the per-item-admitted set is not a subset of
the filtered set. -/
theorem C3_counterexample :
    evaluateAccess lowercaseSecretDoc bob = .allowed ∧
    matchesSecurityFilter bob lowercaseSecretDoc = false := by
  exact ⟨by decide, by decide⟩

/-- C3 (amended): restricted to well-formed documents — a stored
classification that is one of the four recognized uppercase names, and
stored compartments that are absent or an array — every document admitted by
the per-item evaluation matches the bulk security filter built for the same
principal. -/
theorem C3_predicate_overapproximates (user : CurrentUser) (source : SourceMap)
    (c : String)
    (hc : source.lookup "classification" = some (.s c))
    (hrec : c ∈ ["UNCLASSIFIED", "CONFIDENTIAL", "SECRET", "TOP_SECRET"])
    (hcomp : source.lookup "compartments" = none ∨
      ∃ v, source.lookup "compartments" = some (.arr v))
    (hallow : evaluateAccess source user = .allowed) :
    matchesSecurityFilter user source = true := by
  have hcs : classificationString source = some c := by
    unfold classificationString
    rw [hc]
  rw [evaluateAccess_allowed_iff source user c hcs] at hallow
  obtain ⟨hrank, hsub⟩ := hallow
  unfold matchesSecurityFilter
  rw [hc]
  have hclass : decide (c ∈ allowedClassifications (userClearance user)) = true :=
    decide_eq_true ((mem_allowedClassifications c (userClearance user) hrec).mpr hrank)
  rcases hcomp with hnone | ⟨v, hv⟩
  · have hdc : filterDocCompartments source = [] := by
      unfold filterDocCompartments
      rw [hnone]
    simp [hclass, hdc]
  · have hdc : filterDocCompartments source = v := by
      unfold filterDocCompartments
      rw [hv]
    have hpc : pyCompartments source = v := by
      unfold pyCompartments
      rw [hv]
    rw [hpc] at hsub
    by_cases hve : v = []
    · subst hve
      simp [hclass, hdc]
    · have hune : userCompartments user ≠ [] := by
        obtain ⟨x, hx⟩ := List.exists_mem_of_ne_nil v hve
        intro h0
        have hmem := hsub x hx
        rw [h0] at hmem
        exact absurd hmem (List.not_mem_nil x)
      simp only [hclass, hdc, Bool.true_and]
      exact decide_eq_true (Or.inr ⟨hune, hsub⟩)

/-- Witness for the amended C3: alice against the SECRET / PROJECT_ALPHA
document, admitted by evaluation and matched by the filter. -/
theorem C3_witness :
    secretAlphaDoc.lookup "classification" = some (.s "SECRET") ∧
    evaluateAccess secretAlphaDoc alice = .allowed ∧
    matchesSecurityFilter alice secretAlphaDoc = true :=
  ⟨by decide, by decide,
    C3_predicate_overapproximates alice secretAlphaDoc "SECRET" (by decide)
      (by decide) (Or.inr ⟨["PROJECT_ALPHA"], by decide⟩) (by decide)⟩

/-- Membership in `maskedNames`, resolved through a duplicate-free
`field_security` mapping. -/
theorem mem_maskedNames_iff (fs : List (String × FieldSec)) (uc : ClearanceLevel)
    (ucomp : List String) (source : SourceMap) (f : String)
    (hnd : (fs.map Prod.fst).Nodup) :
    f ∈ maskedNames fs uc ucomp source ↔
      ∃ sec, fs.lookup f = some sec ∧ shouldMask sec uc ucomp = true ∧
        (source.lookup f).isSome = true := by
  unfold maskedNames
  rw [List.mem_filterMap]
  constructor
  · rintro ⟨p, hp, hif⟩
    by_cases hcond : shouldMask p.2 uc ucomp = true ∧ (source.lookup p.1).isSome = true
    · rw [if_pos hcond] at hif
      have hpf : p.1 = f := Option.some.inj hif
      refine ⟨p.2, ?_, hcond.1, ?_⟩
      · rw [← hpf]
        exact (mem_iff_lookup_of_nodup fs p.1 p.2 hnd).mp (by simpa using hp)
      · rw [← hpf]
        exact hcond.2
    · rw [if_neg hcond] at hif
      exact absurd hif (by simp)
  · rintro ⟨sec, hl, hm, hp⟩
    refine ⟨(f, sec), (mem_iff_lookup_of_nodup fs f sec hnd).mpr hl, ?_⟩
    rw [if_pos ⟨hm, hp⟩]

/-- C2: a field of the document is masked iff it is listed in
`field_security` and its entry's classification outranks the principal's
clearance or its compartments are non-empty and not all held; every masked
field is still present in the output, holding exactly the "[REDACTED]"
marker; a field not listed in `field_security` keeps its original value.
(A `field_security` entry naming a field absent from the document masks
nothing, so the iff is stated for fields present in the document.) -/
theorem C2_cell_masking (source : SourceMap) (user : CurrentUser)
    (fs : List (String × FieldSec)) (src : SourceMap) (masked : List String)
    (f : String)
    (hfs : getFieldSecurity source = some fs)
    (hnd : (fs.map Prod.fst).Nodup)
    (happ : apply_cell_level_security source user = some (src, masked)) :
    ((source.lookup f).isSome = true →
      (f ∈ masked ↔ ∃ sec, fs.lookup f = some sec ∧
        ((fieldClassification sec).rank > (userClearance user).rank ∨
          (fieldCompartments sec ≠ [] ∧
            ¬ ∀ x ∈ fieldCompartments sec, x ∈ userCompartments user)))) ∧
    (f ∈ masked → src.lookup f = some (.s "[REDACTED]")) ∧
    (f ∉ fs.map Prod.fst → src.lookup f = source.lookup f) := by
  unfold apply_cell_level_security at happ
  rw [hfs] at happ
  have hloop := Option.some.inj happ
  obtain ⟨hspec1, hspec2⟩ :=
    applyCellLoop_spec fs (userClearance user) (userCompartments user) source [] hnd
  rw [hloop] at hspec1 hspec2
  simp only [List.nil_append] at hspec1
  refine ⟨?_, ?_, ?_⟩
  · intro hpres
    rw [hspec1,
      mem_maskedNames_iff fs (userClearance user) (userCompartments user) source f hnd]
    constructor
    · rintro ⟨sec, hl, hm, _⟩
      exact ⟨sec, hl,
        (shouldMask_iff sec (userClearance user) (userCompartments user)).mp hm⟩
    · rintro ⟨sec, hl, hcond⟩
      exact ⟨sec, hl,
        (shouldMask_iff sec (userClearance user) (userCompartments user)).mpr hcond,
        hpres⟩
  · intro hmem
    rw [hspec1] at hmem
    rw [hspec2 f, if_pos hmem]
  · intro hkeys
    have hnm : f ∉ maskedNames fs (userClearance user) (userCompartments user) source :=
      fun hmem => hkeys
        (maskedNames_subset_keys fs (userClearance user) (userCompartments user)
          source f hmem)
    rw [hspec2 f, if_neg hnm]

/-- Witness for C2: bob against the document with one SECRET-restricted
field; the field "content" is present, listed, and masked. -/
theorem C2_witness :
    getFieldSecurity secretFieldDoc = some [("content", ⟨some "SECRET", none⟩)] ∧
    apply_cell_level_security secretFieldDoc bob =
      some ([("content", .s "[REDACTED]"),
             ("field_security", .fsec [("content", ⟨some "SECRET", none⟩)])],
            ["content"]) ∧
    ((secretFieldDoc.lookup "content").isSome = true →
      ("content" ∈ ["content"] ↔
        ∃ sec, ([("content", (⟨some "SECRET", none⟩ : FieldSec))]).lookup "content" =
            some sec ∧
          ((fieldClassification sec).rank > (userClearance bob).rank ∨
            (fieldCompartments sec ≠ [] ∧
              ¬ ∀ x ∈ fieldCompartments sec, x ∈ userCompartments bob)))) ∧
    ("content" ∈ ["content"] →
      ([("content", JVal.s "[REDACTED]"),
        ("field_security", JVal.fsec [("content", ⟨some "SECRET", none⟩)])]
          : SourceMap).lookup "content" = some (.s "[REDACTED]")) ∧
    ("content" ∉ ([("content", (⟨some "SECRET", none⟩ : FieldSec))]).map Prod.fst →
      ([("content", JVal.s "[REDACTED]"),
        ("field_security", JVal.fsec [("content", ⟨some "SECRET", none⟩)])]
          : SourceMap).lookup "content" = secretFieldDoc.lookup "content") :=
  ⟨by decide, by decide,
    C2_cell_masking secretFieldDoc bob [("content", ⟨some "SECRET", none⟩)]
      [("content", .s "[REDACTED]"),
       ("field_security", .fsec [("content", ⟨some "SECRET", none⟩)])]
      ["content"] "content" (by decide) (by decide) (by decide)⟩

/-- C6 counterexample: in `outOfOrderSecurityDoc` the data fields appear in
the order "a", "b", but the masked-field list follows the `field_security`
mapping order and comes out as ["b", "a"] — not the input document's field
order. -/
theorem C6_counterexample :
    (apply_cell_level_security outOfOrderSecurityDoc bob).map (fun p => p.2) =
      some ["b", "a"] ∧
    outOfOrderSecurityDoc.map Prod.fst = ["a", "b", "field_security"] := by
  exact ⟨by decide, by decide⟩

/-- C6 (amended): the masked-field list is ordered by the document's
`field_security` mapping order, not the document's field order: it is
exactly the keys of the `field_security` entries, in mapping order, whose
entry triggers masking and whose field is present in the document. -/
theorem C6_masked_field_order (source : SourceMap) (user : CurrentUser)
    (fs : List (String × FieldSec)) (src : SourceMap) (masked : List String)
    (hfs : getFieldSecurity source = some fs)
    (hnd : (fs.map Prod.fst).Nodup)
    (happ : apply_cell_level_security source user = some (src, masked)) :
    masked = (fs.filter (fun p =>
      shouldMask p.2 (userClearance user) (userCompartments user) ∧
        (source.lookup p.1).isSome)).map Prod.fst := by
  unfold apply_cell_level_security at happ
  rw [hfs] at happ
  have hloop := Option.some.inj happ
  obtain ⟨hspec1, _⟩ :=
    applyCellLoop_spec fs (userClearance user) (userCompartments user) source [] hnd
  rw [hloop] at hspec1
  simp only [List.nil_append] at hspec1
  rw [hspec1, maskedNames_eq_filter]

/-- Witness for the amended C6 at `outOfOrderSecurityDoc` / bob. -/
theorem C6_witness :
    getFieldSecurity outOfOrderSecurityDoc =
      some [("b", ⟨some "TOP_SECRET", none⟩), ("a", ⟨some "TOP_SECRET", none⟩)] ∧
    (["b", "a"] : List String) =
      (([("b", (⟨some "TOP_SECRET", none⟩ : FieldSec)),
         ("a", ⟨some "TOP_SECRET", none⟩)]).filter (fun p =>
        shouldMask p.2 (userClearance bob) (userCompartments bob) ∧
          (outOfOrderSecurityDoc.lookup p.1).isSome)).map Prod.fst :=
  ⟨by decide,
    C6_masked_field_order outOfOrderSecurityDoc bob
      [("b", ⟨some "TOP_SECRET", none⟩), ("a", ⟨some "TOP_SECRET", none⟩)]
      [("a", .s "[REDACTED]"), ("b", .s "[REDACTED]"),
       ("field_security", .fsec
         [("b", ⟨some "TOP_SECRET", none⟩), ("a", ⟨some "TOP_SECRET", none⟩)])]
      ["b", "a"] (by decide) (by decide) (by decide)⟩

/-- Updating a key of a duplicate-free association list with the value it
already holds is the identity. -/
theorem map_set_id (m : SourceMap) (k : String) (v : JVal)
    (hnd : (m.map Prod.fst).Nodup) (h : m.lookup k = some v) :
    m.map (fun p => if p.1 = k then (k, v) else p) = m := by
  induction m with
  | nil => rfl
  | cons p rest ih =>
    obtain ⟨a, b⟩ := p
    rw [List.map_cons, List.nodup_cons] at hnd
    obtain ⟨ha, hnd'⟩ := hnd
    rw [lookup_cons] at h
    rw [List.map_cons]
    by_cases hk : k = a
    · subst hk
      rw [if_pos rfl] at h
      have hb : b = v := Option.some.inj h
      subst hb
      have htail : ∀ q ∈ rest, (if q.1 = k then (k, b) else q) = q := by
        intro q hq
        rw [if_neg]
        intro hqk
        exact ha (List.mem_map.mpr ⟨q, hq, hqk⟩)
      have : rest.map (fun q => if q.1 = k then (k, b) else q) = rest := by
        calc rest.map (fun q => if q.1 = k then (k, b) else q)
            = rest.map id := List.map_congr_left htail
          _ = rest := List.map_id rest
      rw [this]
      simp
    · rw [if_neg hk] at h
      have hhead : (if a = k then (k, v) else ((a, b) : String × JVal)) = (a, b) :=
        if_neg (fun hak => hk hak.symm)
      simp only [hhead]
      rw [ih hnd' h]

/-- The masking loop leaves the keys of the source dict unchanged, in
order. -/
theorem dictSet_keys (m : SourceMap) (k : String) (v : JVal)
    (h : (m.lookup k).isSome = true) :
    (dictSet m k v).map Prod.fst = m.map Prod.fst := by
  unfold dictSet
  rw [if_pos h, List.map_map]
  apply List.map_congr_left
  intro p _
  by_cases hk : p.1 = k
  · simp [hk]
  · simp [hk]

theorem applyCellLoop_keys (fs : List (String × FieldSec)) (uc : ClearanceLevel)
    (ucomp : List String) (source : SourceMap) (acc : List String) :
    ((applyCellLoop fs uc ucomp source acc).1).map Prod.fst =
      source.map Prod.fst := by
  induction fs generalizing source acc with
  | nil => simp [applyCellLoop]
  | cons p rest ih =>
    obtain ⟨fname, sec⟩ := p
    by_cases hc : shouldMask sec uc ucomp = true ∧ (source.lookup fname).isSome = true
    · simp only [applyCellLoop]
      rw [if_pos hc, ih, dictSet_keys source fname _ hc.2]
    · simp only [applyCellLoop]
      rw [if_neg hc, ih]

/-- On a source whose maskable fields already hold the redaction marker, the
masking loop is the identity on the source (and reports the same names). -/
theorem applyCellLoop_fixed (fs : List (String × FieldSec)) (uc : ClearanceLevel)
    (ucomp : List String) (src : SourceMap) (acc : List String)
    (hnds : (src.map Prod.fst).Nodup)
    (hred : ∀ p ∈ fs, shouldMask p.2 uc ucomp = true →
      (src.lookup p.1).isSome = true → src.lookup p.1 = some (.s "[REDACTED]")) :
    applyCellLoop fs uc ucomp src acc = (src, acc ++ maskedNames fs uc ucomp src) := by
  induction fs generalizing acc with
  | nil => simp [applyCellLoop, maskedNames]
  | cons p rest ih =>
    obtain ⟨fname, sec⟩ := p
    by_cases hc : shouldMask sec uc ucomp = true ∧ (src.lookup fname).isSome = true
    · have hr : src.lookup fname = some (.s "[REDACTED]") :=
        hred (fname, sec) (List.mem_cons_self _ _) hc.1 hc.2
      have hds : dictSet src fname (.s "[REDACTED]") = src := by
        unfold dictSet
        rw [if_pos hc.2]
        exact map_set_id src fname _ hnds hr
      simp only [applyCellLoop]
      rw [if_pos hc, hds,
        ih (acc ++ [fname]) (fun q hq => hred q (List.mem_cons_of_mem _ hq))]
      have hmn : maskedNames ((fname, sec) :: rest) uc ucomp src =
          fname :: maskedNames rest uc ucomp src := by
        simp [maskedNames, hc]
      rw [hmn]
      simp
    · simp only [applyCellLoop]
      rw [if_neg hc, ih acc (fun q hq => hred q (List.mem_cons_of_mem _ hq))]
      have hmn : maskedNames ((fname, sec) :: rest) uc ucomp src =
          maskedNames rest uc ucomp src := by
        unfold maskedNames
        simp only [List.filterMap_cons]
        rw [if_neg hc]
      rw [hmn]

/-- C7 counterexample: when `field_security` secures the `field_security`
entry itself, the first pass redacts it to a string, and re-applying the
masking pass to the output crashes (`"[REDACTED]".items()` raises
`AttributeError`) instead of masking nothing further — so masking is not
idempotent on all documents. -/
theorem C7_counterexample :
    apply_cell_level_security selfSecuredDoc bob =
      some ([("field_security", .s "[REDACTED]")], ["field_security"]) ∧
    apply_cell_level_security [("field_security", JVal.s "[REDACTED]")] bob = none := by
  exact ⟨by decide, by decide⟩

/-- C7 (amended): for documents whose `field_security` mapping does not
secure the `field_security` entry itself, masking is idempotent on the nose:
re-applying the pass to the masked output returns the identical source and
the identical masked-field list — no additional field is masked and no
already-redacted field changes value. -/
theorem C7_masking_idempotent (source : SourceMap) (user : CurrentUser)
    (fs : List (String × FieldSec)) (src : SourceMap) (masked : List String)
    (hnds : (source.map Prod.fst).Nodup)
    (hfs : getFieldSecurity source = some fs)
    (hnd : (fs.map Prod.fst).Nodup)
    (hself : "field_security" ∉ fs.map Prod.fst)
    (happ : apply_cell_level_security source user = some (src, masked)) :
    apply_cell_level_security src user = some (src, masked) := by
  unfold apply_cell_level_security at happ
  rw [hfs] at happ
  have hloop := Option.some.inj happ
  obtain ⟨hspec1, hspec2⟩ :=
    applyCellLoop_spec fs (userClearance user) (userCompartments user) source [] hnd
  rw [hloop] at hspec1 hspec2
  simp only [List.nil_append] at hspec1
  have hfsmem : "field_security" ∉
      maskedNames fs (userClearance user) (userCompartments user) source :=
    fun hm => hself (maskedNames_subset_keys fs (userClearance user)
      (userCompartments user) source "field_security" hm)
  have hlfs : src.lookup "field_security" = source.lookup "field_security" := by
    rw [hspec2 "field_security", if_neg hfsmem]
  have hfs2 : getFieldSecurity src = some fs := by
    unfold getFieldSecurity at hfs ⊢
    rw [hlfs]
    exact hfs
  have hpe : ∀ f, (src.lookup f).isSome = (source.lookup f).isSome := by
    intro f
    rw [hspec2 f]
    by_cases hm : f ∈ maskedNames fs (userClearance user) (userCompartments user) source
    · rw [if_pos hm,
        maskedNames_present fs (userClearance user) (userCompartments user) source f hm]
      rfl
    · rw [if_neg hm]
  have hkeys : src.map Prod.fst = source.map Prod.fst := by
    have hk := applyCellLoop_keys fs (userClearance user) (userCompartments user) source []
    rw [hloop] at hk
    exact hk
  have hnds2 : (src.map Prod.fst).Nodup := by
    rw [hkeys]
    exact hnds
  have hred : ∀ p ∈ fs, shouldMask p.2 (userClearance user) (userCompartments user) = true →
      (src.lookup p.1).isSome = true → src.lookup p.1 = some (.s "[REDACTED]") := by
    intro p hp hm hpres
    have hmem : p.1 ∈ maskedNames fs (userClearance user) (userCompartments user) source := by
      rw [mem_maskedNames_iff fs (userClearance user) (userCompartments user) source p.1 hnd]
      refine ⟨p.2, (mem_iff_lookup_of_nodup fs p.1 p.2 hnd).mp (by simpa using hp), hm, ?_⟩
      rw [← hpe p.1]
      exact hpres
    rw [hspec2 p.1, if_pos hmem]
  unfold apply_cell_level_security
  rw [hfs2]
  show some (applyCellLoop fs (userClearance user) (userCompartments user) src []) =
    some (src, masked)
  rw [applyCellLoop_fixed fs (userClearance user) (userCompartments user) src [] hnds2 hred,
    maskedNames_congr fs (userClearance user) (userCompartments user) src source hpe,
    hspec1]
  simp

/-- Witness for the amended C7 at `secretFieldDoc` / bob: re-masking the
masked output is the identity. -/
theorem C7_witness :
    (secretFieldDoc.map Prod.fst).Nodup ∧
    "field_security" ∉ ([("content", (⟨some "SECRET", none⟩ : FieldSec))]).map Prod.fst ∧
    apply_cell_level_security
      [("content", .s "[REDACTED]"),
       ("field_security", .fsec [("content", ⟨some "SECRET", none⟩)])] bob =
      some ([("content", .s "[REDACTED]"),
             ("field_security", .fsec [("content", ⟨some "SECRET", none⟩)])],
            ["content"]) :=
  ⟨by decide, by decide,
    C7_masking_idempotent secretFieldDoc bob [("content", ⟨some "SECRET", none⟩)]
      [("content", .s "[REDACTED]"),
       ("field_security", .fsec [("content", ⟨some "SECRET", none⟩)])]
      ["content"] (by decide) (by decide) (by decide) (by decide) (by decide)⟩

/-- C8 (a bug in the code): `apply_cell_level_security` is not pure in its
input.  `filtered_doc = doc.copy()` is a shallow copy, so the `source` dict
it writes "[REDACTED]" into is the caller's own `_source` object.  At the
failing input (a document with one maskable field, fetched by bob), the
input document's `_source` differs after the call: its "content" value has
become the redaction marker. -/
theorem C8_input_source_mutated :
    applyCellInputSourceAfter secretFieldDoc bob ≠ secretFieldDoc ∧
    (applyCellInputSourceAfter secretFieldDoc bob).lookup "content" =
      some (.s "[REDACTED]") ∧
    secretFieldDoc.lookup "content" = some (.s "launch codes") := by
  exact ⟨by decide, by decide, by decide⟩

/-- C4 counterexample: fetching `secretFieldDoc` as bob admits the document
(an allowed document-level decision) and redacts the field "content" (a
masking decision), yet the request emits exactly one audit event — the
document-access event — and none for the redaction.  Two decisions, one
event: not one event per decision. -/
theorem C4_counterexample :
    get_document "doc-1" secretFieldDoc bob =
      (.ok [("content", .s "[REDACTED]"),
            ("field_security", .fsec [("content", ⟨some "SECRET", none⟩)])]
        ["content"],
       [.docAccess "bob" "doc-1"]) := by
  decide

/-- C4 (amended): only the document-level decision of the single-document
path is audited, exactly once — one denial event on either denial branch,
one access event on the allow branch; per-field masking decisions produce no
events of their own, and the search path emits exactly one search-level
event per request regardless of how many per-hit decisions it makes. -/
theorem C4_audit_per_document_decision (documentId : String) (source : SourceMap)
    (user : CurrentUser) (query : String) (hits : List SourceMap)
    (results : List (SourceMap × List String)) (events : List AuditEvent)
    (hok : (get_document documentId source user).1 ≠ .pyError)
    (hsearch : search_documents query hits user = some (results, events)) :
    (get_document documentId source user).2.length = 1 ∧
    (∀ r, (get_document documentId source user).1 = .forbidden r →
      (get_document documentId source user).2 =
        [.accessDenied user.username documentId r]) ∧
    (∀ doc m, (get_document documentId source user).1 = .ok doc m →
      (get_document documentId source user).2 =
        [.docAccess user.username documentId]) ∧
    events = [.searchAudit user.username query hits.length] := by
  have hget : (get_document documentId source user).2.length = 1 ∧
      (∀ r, (get_document documentId source user).1 = .forbidden r →
        (get_document documentId source user).2 =
          [.accessDenied user.username documentId r]) ∧
      (∀ doc m, (get_document documentId source user).1 = .ok doc m →
        (get_document documentId source user).2 =
          [.docAccess user.username documentId]) := by
    cases hev : evaluateAccess source user with
    | evalError =>
      exfalso
      apply hok
      simp [get_document, hev]
    | denied r =>
      refine ⟨?_, ?_, ?_⟩ <;> simp [get_document, hev]
    | allowed =>
      cases happ : apply_cell_level_security source user with
      | none =>
        exfalso
        apply hok
        simp [get_document, hev, happ]
      | some pr =>
        obtain ⟨sdoc, m⟩ := pr
        refine ⟨?_, ?_, ?_⟩ <;> simp [get_document, hev, happ]
  refine ⟨hget.1, hget.2.1, hget.2.2, ?_⟩
  cases hits with
  | nil =>
    unfold search_documents at hsearch
    rw [Option.some.injEq] at hsearch
    rw [← (Prod.mk.injEq _ _ _ _ ▸ hsearch :
      ([] : List (SourceMap × List String)) = results ∧
        [AuditEvent.searchAudit user.username query 0] = events).2]
    rfl
  | cons h rest =>
    unfold search_documents at hsearch
    cases happ1 : apply_cell_level_security h user with
    | none =>
      rw [happ1] at hsearch
      simp at hsearch
    | some res =>
      rw [happ1] at hsearch
      cases hs2 : search_documents query rest user with
      | none =>
        rw [hs2] at hsearch
        simp at hsearch
      | some pr =>
        obtain ⟨res2, ev2⟩ := pr
        rw [hs2] at hsearch
        simp only [Option.some.injEq, Prod.mk.injEq] at hsearch
        exact hsearch.2.symm

/-- Witness for the amended C4: the single-document path at bob /
`secretFieldDoc`, and an empty search. -/
theorem C4_witness :
    ((get_document "doc-1" secretFieldDoc bob).1 ≠ .pyError) ∧
    ((get_document "doc-1" secretFieldDoc bob).2.length = 1 ∧
      (∀ r, (get_document "doc-1" secretFieldDoc bob).1 = .forbidden r →
        (get_document "doc-1" secretFieldDoc bob).2 =
          [.accessDenied "bob" "doc-1" r]) ∧
      (∀ doc m, (get_document "doc-1" secretFieldDoc bob).1 = .ok doc m →
        (get_document "doc-1" secretFieldDoc bob).2 =
          [.docAccess "bob" "doc-1"]) ∧
      ([AuditEvent.searchAudit "bob" "q" 0] : List AuditEvent) =
        [.searchAudit "bob" "q" ([] : List SourceMap).length]) :=
  ⟨by decide,
    C4_audit_per_document_decision "doc-1" secretFieldDoc bob "q" [] []
      [.searchAudit "bob" "q" 0] (by decide) rfl⟩

/-- Two cell-access entries logged for one document fetch. -/
def cellEntries : List CellEntry :=
  [⟨"content", some "SECRET", true, none⟩,
   ⟨"notes", some "SECRET", false, some "insufficient_clearance"⟩]

/-- C9 counterexample: writing the two-entry batch with the second insert
failing leaves exactly the first row committed — one row of two, neither
none nor all — because `log_event` runs `db.commit()` after every single
insert.  The batch is not all-or-none per document. -/
theorem C9_counterexample :
    log_cell_access_batch "rec-1" cellEntries (fun i => i == 0) ⟨[], []⟩ =
      .error ⟨[rowOfEntry "rec-1" ⟨"content", some "SECRET", true, none⟩], []⟩ ∧
    cellEntries.length = 2 := by
  exact ⟨rfl, rfl⟩

/-- C9 (amended): the batch writes the rows in the entries' original order,
but commits per entry rather than all-or-none: when every insert succeeds,
all rows are durable in order; when the (k+1)-st insert fails after k
successes, exactly the first k rows remain durable. -/
theorem C9_batch_commit_behavior (recordId : String) (entries : List CellEntry)
    (k : Nat) (db : Db) (hp : db.pending = []) :
    (entries.length ≤ k →
      log_cell_access_batch recordId entries (fun i => decide (i < k)) db =
        .ok ⟨db.committed ++ entries.map (rowOfEntry recordId), []⟩) ∧
    (k < entries.length →
      log_cell_access_batch recordId entries (fun i => decide (i < k)) db =
        .error ⟨db.committed ++ (entries.take k).map (rowOfEntry recordId), []⟩) := by
  induction entries generalizing k db with
  | nil =>
    obtain ⟨c, p⟩ := db
    simp only at hp
    subst hp
    constructor
    · intro _
      simp [log_cell_access_batch]
    · intro h
      simp at h
  | cons e rest ih =>
    obtain ⟨c, p⟩ := db
    simp only at hp
    subst hp
    cases k with
    | zero =>
      constructor
      · intro h
        simp at h
      · intro _
        simp [log_cell_access_batch, log_event]
    | succ n =>
      have h0 : (decide (0 < n + 1)) = true := by simp
      have hshift : (fun i => decide (i + 1 < n + 1)) = (fun i => decide (i < n)) := by
        funext i
        simp [Nat.succ_lt_succ_iff]
      have hdb1 : log_event ⟨c, []⟩ true (rowOfEntry recordId e) =
          .ok ⟨c ++ [rowOfEntry recordId e], []⟩ := by
        simp [log_event, dbExecute, dbCommit]
      have hih := ih n ⟨c ++ [rowOfEntry recordId e], []⟩ rfl
      constructor
      · intro h
        have h' : rest.length ≤ n := by
          simp only [List.length_cons] at h
          omega
        simp only [log_cell_access_batch, h0, hdb1, hshift]
        rw [hih.1 h']
        simp
      · intro h
        have h' : n < rest.length := by
          simp only [List.length_cons] at h
          omega
        simp only [log_cell_access_batch, h0, hdb1, hshift]
        rw [hih.2 h']
        simp

/-- Witness for the amended C9: the two-entry batch against an empty
database, with every insert succeeding (k = 2). -/
theorem C9_witness :
    (Db.pending ⟨[], []⟩ = []) ∧
    ((cellEntries.length ≤ 2 →
      log_cell_access_batch "rec-1" cellEntries (fun i => decide (i < 2)) ⟨[], []⟩ =
        .ok ⟨Db.committed ⟨[], []⟩ ++ cellEntries.map (rowOfEntry "rec-1"), []⟩) ∧
    (2 < cellEntries.length →
      log_cell_access_batch "rec-1" cellEntries (fun i => decide (i < 2)) ⟨[], []⟩ =
        .error ⟨Db.committed ⟨[], []⟩ ++
          (cellEntries.take 2).map (rowOfEntry "rec-1"), []⟩)) :=
  ⟨rfl, C9_batch_commit_behavior "rec-1" cellEntries 2 ⟨[], []⟩ rfl⟩

end RbacDemo
